import Mathlib

/-!
A verification development for `Module_4-Analytics_Engineering/quick_ingest_fhv.py`:
the download–convert–load pipeline with idempotent resumption and partial-failure
isolation.  Python functions are embedded shallowly: the filesystem is an explicit
association list from paths to byte sizes, the HTTP client and the DuckDB CSV→Parquet
conversion are external collaborators whose per-call outcomes are supplied by oracle
values (`DlOutcome`, `CvOutcome`), and the orchestrator is a fold over the enumerated
periods.  Invocation counters (`fetches`, `converts`) instrument the call sites of
`download_file` and `convert_csv_gz_to_parquet`.
-/

/-- A path inside the `data/fhv` directory.  The source derives file names
deterministically from the period: `FPath.csvGz y m` stands for the staging file
`fhv_tripdata_{y}-{m:02d}.csv.gz` and `FPath.parquet y m` for the artifact
`fhv_tripdata_{y}-{m:02d}.parquet` (the naming convention itself is an excluded
wrapper; zero-padding makes distinct periods yield distinct names). -/
inductive FPath where
  | csvGz (year month : Nat)
  | parquet (year month : Nat)
deriving DecidableEq

/-- The period a file name encodes. -/
def FPath.period : FPath → Nat × Nat
  | .csvGz y m => (y, m)
  | .parquet y m => (y, m)

/-- Whether a path matches the glob `*.parquet`. -/
def isParquetPath : FPath → Bool
  | .csvGz _ _ => false
  | .parquet _ _ => true

/-- The local filesystem restricted to `data/fhv`: a finite association list from
paths to file sizes in bytes (`stat().st_size`).  Absence of a key models absence
of the file. -/
abbrev FS := List (FPath × Nat)

/-- Size of the file at `p`, `none` if no file exists (`Path.exists` / `stat`). -/
def fsGet : FS → FPath → Option Nat
  | [], _ => none
  | e :: t, p => if e.1 = p then some e.2 else fsGet t p

/-- Delete the file at `p` (`Path.unlink`); the source wraps every unlink in
`try/except pass`, and we model the successful deletion. -/
def fsDel : FS → FPath → FS
  | [], _ => []
  | e :: t, p => if e.1 = p then fsDel t p else e :: fsDel t p

/-- Create or overwrite the file at `p` with size `n` (`open(p, "wb")` + writes). -/
def fsSet (fs : FS) (p : FPath) (n : Nat) : FS :=
  (p, n) :: fsDel fs p

/-- `p.exists() and p.stat().st_size > k`. -/
def hasSizeGt (fs : FS) (p : FPath) (k : Nat) : Bool :=
  match fsGet fs p with
  | some n => k < n
  | none => false

/-- `p.exists() and p.stat().st_size <= k`. -/
def hasSizeLe (fs : FS) (p : FPath) (k : Nat) : Bool :=
  match fsGet fs p with
  | some n => n ≤ k
  | none => false

/-- The body of `month_range`'s `while` loop, with an explicit fuel bound on the
number of iterations.  The Python loop
`while (y < end_year) or (y == end_year and m <= end_month)` increments `m` and
carries `m == 13` into a year increment; for any starting month in `1..12` the
quantity `12*y + m` increases by exactly one per iteration and is bounded by
`12*end_year + end_month` while the guard holds, so the fuel chosen in
`month_range` strictly exceeds the number of iterations for every input on which
the Python loop terminates (all theorems below carry the month-validity
hypotheses under which this holds). -/
def monthRangeAux (ey em : Nat) : Nat → Nat → Nat → List (Nat × Nat)
  | 0, _, _ => []
  | fuel + 1, y, m =>
    if y < ey ∨ (y = ey ∧ m ≤ em) then
      (y, m) ::
        (if m + 1 = 13 then monthRangeAux ey em fuel (y + 1) 1
         else monthRangeAux ey em fuel y (m + 1))
    else []

/-- `month_range(start_year, start_month, end_year, end_month)`: yield
`(year, month)` tuples from start (inclusive) to end (inclusive). -/
def month_range (sy sm ey em : Nat) : List (Nat × Nat) :=
  monthRangeAux ey em (12 * ey + em + 2) sy sm

/-- Linearization of a period: the index of month `m` of year `y` on the month
number line (months are 1-based). -/
def linP (y m : Nat) : Nat := 12 * y + m

/-- Inverse of `linP` on valid periods: the period whose linearization is `k`. -/
def unlinP (k : Nat) : Nat × Nat := ((k - 1) / 12, (k - 1) % 12 + 1)

/-- Outcome of one `requests.get` + streamed write in `download_file`, decided by
the remote endpoint and the network:
`httpError e` — the response status is non-success, so `resp.raise_for_status()`
raises `e` *before* the destination is opened for writing;
`writeFail k e` — the destination was opened (created/truncated) and `k` bytes
were written when the transfer raised `e`;
`ok n` — the full `n`-byte body was written. -/
inductive DlOutcome where
  | httpError (e : String)
  | writeFail (k : Nat) (e : String)
  | ok (n : Nat)
deriving DecidableEq

/-- Outcome of the DuckDB `COPY (SELECT * FROM read_csv_auto(...)) TO ... (FORMAT
PARQUET)` statement in `convert_csv_gz_to_parquet`:
`ok n` — conversion succeeded writing an `n`-byte parquet file;
`fail leftover e` — the statement raised `e`, leaving a partially written file of
size `k` at the destination when `leftover = some k` and no file when `none`. -/
inductive CvOutcome where
  | ok (n : Nat)
  | fail (leftover : Option Nat) (e : String)
deriving DecidableEq

/-- The external-world behaviour of one work unit: what the unit's download and
its conversion would do if invoked. -/
structure UnitEnv where
  dl : DlOutcome
  cv : CvOutcome
deriving DecidableEq

def BASE_URL : String := "https://github.com/DataTalksClub/nyc-tlc-data/releases/download"

def RELEASE : String := "fhv"

/-- `download_file(url, dest)`: `requests.get` then `resp.raise_for_status()`,
and only then `open(dest, "wb")` followed by the chunked writes — so on an HTTP
error the filesystem is untouched, while a mid-transfer failure leaves a partial
file.  `url` (and the source's `chunk_size`, defaulting to 8192) do not affect
the modelled filesystem. -/
def download_file (o : DlOutcome) (fs : FS) (url : String) (dest : FPath) :
    FS × Except String Unit :=
  match o with
  | .httpError e => (fs, Except.error e)
  | .writeFail k e => (fsSet fs dest k, Except.error e)
  | .ok n => (fsSet fs dest n, Except.ok ())

/-- `convert_csv_gz_to_parquet(csv_gz_path, parquet_path)`: run the DuckDB COPY;
on failure, if a partial parquet file was created, remove it so future runs don't
"skip" it, then re-raise. -/
def convert_csv_gz_to_parquet (o : CvOutcome) (fs : FS) (csv_gz_path parquet_path : FPath) :
    FS × Except String Unit :=
  match o with
  | .ok n => (fsSet fs parquet_path n, Except.ok ())
  | .fail leftover e =>
    let fs1 := match leftover with
      | some k => fsSet fs parquet_path k
      | none => fs
    let fs2 := if (fsGet fs1 parquet_path).isSome then fsDel fs1 parquet_path else fs1
    (fs2, Except.error e)

/-- How one loop iteration of `download_and_convert_fhv_files` ends: a success
records the parquet path, a failure records `(csv_gz_filename, message)`. -/
inductive UnitOutcome where
  | succ (p : FPath)
  | fail (f : FPath × String)
deriving DecidableEq

/-- Result of processing one work unit: the filesystem afterwards, the recorded
outcome, and how many times the Fetcher (`download_file`) and the Converter
(`convert_csv_gz_to_parquet`) were invoked during the unit. -/
structure UnitOut where
  fs : FS
  out : UnitOutcome
  fetches : Nat
  converts : Nat
deriving DecidableEq

/-- One iteration of the loop body of `download_and_convert_fhv_files` for period
`(year, month)`:
skip if already converted and looking non-empty (size > 1024); otherwise remove a
tiny/broken parquet left from a previous failed run, download (recording a
failure and removing any partial download on error), convert (recording a failure
on error), and in all post-download cases finally remove the csv.gz. -/
def processUnit (e : UnitEnv) (year month : Nat) (fs : FS) : UnitOut :=
  let csv_gz_filepath := FPath.csvGz year month
  let parquet_filepath := FPath.parquet year month
  if hasSizeGt fs parquet_filepath 1024 then
    ⟨fs, UnitOutcome.succ parquet_filepath, 0, 0⟩
  else
    let fs1 := if hasSizeLe fs parquet_filepath 1024 then fsDel fs parquet_filepath else fs
    match download_file e.dl fs1 (BASE_URL ++ "/" ++ RELEASE) csv_gz_filepath with
    | (fs2, Except.error msg) =>
      let fs3 := if (fsGet fs2 csv_gz_filepath).isSome then fsDel fs2 csv_gz_filepath else fs2
      ⟨fs3, UnitOutcome.fail (csv_gz_filepath, "download failed: " ++ msg), 1, 0⟩
    | (fs2, Except.ok _) =>
      match convert_csv_gz_to_parquet e.cv fs2 csv_gz_filepath parquet_filepath with
      | (fs3, Except.ok _) =>
        let fs4 := if (fsGet fs3 csv_gz_filepath).isSome then fsDel fs3 csv_gz_filepath else fs3
        ⟨fs4, UnitOutcome.succ parquet_filepath, 1, 1⟩
      | (fs3, Except.error msg) =>
        let fs4 := if (fsGet fs3 csv_gz_filepath).isSome then fsDel fs3 csv_gz_filepath else fs3
        ⟨fs4, UnitOutcome.fail (csv_gz_filepath, "convert failed: " ++ msg), 1, 1⟩

/-- The aggregate result of a batch run: final filesystem, the two ordered result
sequences of `download_and_convert_fhv_files`, and total Fetcher/Converter
invocation counts. -/
structure BatchOut where
  fs : FS
  successes : List FPath
  failures : List (FPath × String)
  fetches : Nat
  converts : Nat
deriving DecidableEq

/-- The orchestrator loop over a list of periods.  The source appends each unit's
outcome to growing `successes`/`failures` lists; building the same lists by
consing the head unit's outcome onto the results of the remaining units yields
identical sequences. -/
def runUnits (env : Nat × Nat → UnitEnv) : List (Nat × Nat) → FS → BatchOut
  | [], fs => ⟨fs, [], [], 0, 0⟩
  | (y, m) :: rest, fs =>
    let u := processUnit (env (y, m)) y m fs
    let b := runUnits env rest u.fs
    match u.out with
    | UnitOutcome.succ p =>
      ⟨b.fs, p :: b.successes, b.failures, u.fetches + b.fetches, u.converts + b.converts⟩
    | UnitOutcome.fail x =>
      ⟨b.fs, b.successes, x :: b.failures, u.fetches + b.fetches, u.converts + b.converts⟩

/-- `download_and_convert_fhv_files(start_year, start_month, end_year, end_month)`:
drive the per-unit loop over `month_range`, continuing month-by-month even if
some months fail, and return `(successful_parquets, failures[(filename, error)])`. -/
def download_and_convert_fhv_files (env : Nat × Nat → UnitEnv)
    (start_year start_month end_year end_month : Nat) (fs : FS) : BatchOut :=
  runUnits env (month_range start_year start_month end_year end_month) fs

/-- Year component of a file name, for name ordering. -/
def pYear : FPath → Nat
  | .csvGz y _ => y
  | .parquet y _ => y

/-- Month component of a file name, for name ordering. -/
def pMonth : FPath → Nat
  | .csvGz _ m => m
  | .parquet _ m => m

/-- Extension tag of a file name, for name ordering. -/
def pTag : FPath → Nat
  | .csvGz _ _ => 0
  | .parquet _ _ => 1

/-- Lexicographic file-name order.  With the zero-padded naming scheme
`fhv_tripdata_{year}-{month:02d}.{ext}`, Python's `sorted()` over the name
strings orders files by year, then month, then extension. -/
def pathLe (p q : FPath) : Prop :=
  pYear p < pYear q ∨
    (pYear p = pYear q ∧
      (pMonth p < pMonth q ∨ (pMonth p = pMonth q ∧ pTag p ≤ pTag q)))

instance : DecidableRel pathLe := fun p q => by
  unfold pathLe; exact inferInstance

/-- Name order on directory entries `(path, size)`. -/
def entryLe (a b : FPath × Nat) : Prop := pathLe a.1 b.1

instance : DecidableRel entryLe := fun a b => by
  unfold entryLe; exact inferInstance

instance : IsTotal FPath pathLe :=
  ⟨fun p q => by unfold pathLe; omega⟩

instance : IsTrans FPath pathLe :=
  ⟨fun p q r hpq hqr => by unfold pathLe at *; omega⟩

instance : IsTotal (FPath × Nat) entryLe :=
  ⟨fun a b => IsTotal.total (r := pathLe) a.1 b.1⟩

instance : IsTrans (FPath × Nat) entryLe :=
  ⟨fun a b c => IsTrans.trans (r := pathLe) a.1 b.1 c.1⟩

/-- A parquet file's logical content: a column-name list and rows, each row an
association list from column name to value (values abstracted as `Nat`).  The
content sits behind the `read_parquet` collaborator, so the model supplies it as
a function of the path. -/
structure Table where
  cols : List String
  rows : List (List (String × Nat))
deriving DecidableEq

/-- The destination relation `prod.fhv_tripdata` produced by a load: resolved
column list and rows aligned to it, `none` marking NULL. -/
structure UTable where
  cols : List String
  rows : List (List (Option Nat))
deriving DecidableEq

/-- Column names not in `seen`, in order of first appearance, duplicates dropped. -/
def dedupFirstAux (seen : List String) : List String → List String
  | [] => []
  | c :: cs => if c ∈ seen then dedupFirstAux seen cs else c :: dedupFirstAux (c :: seen) cs

/-- Column names in order of first appearance, duplicates dropped. -/
def dedupFirst (l : List String) : List String := dedupFirstAux [] l

/-- DuckDB's `read_parquet([...], union_by_name=true)` over the listed tables:
the resolved schema is the union of the column names in order of first
appearance, rows are concatenated in file order, and a column absent from a
row's source file yields NULL for that row. -/
def unionByName (ts : List Table) : UTable :=
  let cs := dedupFirst (ts.flatMap Table.cols)
  ⟨cs, ts.flatMap (fun t => t.rows.map (fun r => cs.map (fun c => List.lookup c r)))⟩

/-- The message of the error raised on a batch with no valid artifacts (the
spec's `NoValidArtifactsError`). -/
def NoValidArtifactsMsg : String :=
  "No valid parquet files found to load. Conversion likely failed for all months."

/-- `sorted(fhv_dir.glob("*.parquet"))`: the directory's parquet entries in name
order.  Python's `sorted` returns the unique sorted permutation for a duplicate-
free directory listing; insertion sort computes it. -/
def parquetFilesOf (fs : FS) : List (FPath × Nat) :=
  List.insertionSort entryLe (fs.filter (fun e => isParquetPath e.1))

/-- `good_files`: the heuristic filter keeping entries whose size exceeds 1024
bytes (skipping tiny files that are likely partial/broken). -/
def good_files (fs : FS) : List (FPath × Nat) :=
  (parquetFilesOf fs).filter (fun e => 1024 < e.2)

/-- `load_parquets_into_duckdb(db_path)`: glob and sort the parquet files, keep
the non-tiny ones, raise if none remain (before any database connection is
opened, so the destination table keeps its prior state), and otherwise
CREATE OR REPLACE `prod.fhv_tripdata` as the union-by-name of the kept files in
that order.  `content` gives each parquet file's logical table, `db` the prior
destination table (`none` when the table does not exist). -/
def load_parquets_into_duckdb (content : FPath → Table) (fs : FS) (db : Option UTable) :
    Option UTable × Except String Unit :=
  let gf := good_files fs
  if gf.isEmpty then
    (db, Except.error NoValidArtifactsMsg)
  else
    (some (unionByName (gf.map (fun e => content e.1))), Except.ok ())

/-! ## Filesystem lemmas -/

theorem fsGet_fsDel (fs : FS) (p q : FPath) :
    fsGet (fsDel fs p) q = if q = p then none else fsGet fs q := by
  induction fs with
  | nil => simp [fsDel, fsGet]
  | cons e t ih =>
    by_cases h1 : e.1 = p
    · by_cases h2 : q = p
      · subst h2; simp [fsDel, fsGet, h1, ih]
      · have h3 : ¬e.1 = q := fun hh => h2 (hh.symm.trans h1)
        have h4 : ¬p = q := fun hh => h2 hh.symm
        simp [fsDel, fsGet, h1, h2, h3, h4, ih]
    · by_cases h2 : q = p
      · subst h2; simp [fsDel, fsGet, h1, ih]
      · simp [fsDel, fsGet, h1, h2, ih]

theorem fsGet_fsSet (fs : FS) (p : FPath) (n : Nat) (q : FPath) :
    fsGet (fsSet fs p n) q = if q = p then some n else fsGet fs q := by
  by_cases h : q = p <;> simp [fsSet, fsGet, fsGet_fsDel, h]
  · intro hc; exact absurd hc.symm h

theorem fsGet_fsDel_self (fs : FS) (p : FPath) : fsGet (fsDel fs p) p = none := by
  simp [fsGet_fsDel]

/-! ## Per-unit lemmas about `processUnit` -/

theorem processUnit_skip (e : UnitEnv) (y m : Nat) (fs : FS)
    (h : hasSizeGt fs (FPath.parquet y m) 1024 = true) :
    processUnit e y m fs = ⟨fs, UnitOutcome.succ (FPath.parquet y m), 0, 0⟩ := by
  simp only [processUnit, h, if_true]

theorem hasSizeGt_true_iff (fs : FS) (p : FPath) (k : Nat) :
    hasSizeGt fs p k = true ↔ ∃ n, fsGet fs p = some n ∧ k < n := by
  unfold hasSizeGt
  cases hfs : fsGet fs p <;> simp

theorem fsGet_of_not_gt_not_le (fs : FS) (p : FPath) (k : Nat)
    (hg : hasSizeGt fs p k = false) (hl : hasSizeLe fs p k = false) :
    fsGet fs p = none := by
  unfold hasSizeGt at hg
  unfold hasSizeLe at hl
  cases hfs : fsGet fs p
  · rfl
  · rw [hfs] at hg hl
    simp at hg hl
    omega

theorem processUnit_fsGet_purged (e : UnitEnv) (y m : Nat) (fs : FS)
    (h : hasSizeGt fs (FPath.parquet y m) 1024 = false) :
    fsGet (if hasSizeLe fs (FPath.parquet y m) 1024 then fsDel fs (FPath.parquet y m) else fs)
      (FPath.parquet y m) = none := by
  by_cases hle : hasSizeLe fs (FPath.parquet y m) 1024
  · simp [hle, fsGet_fsDel]
  · simp only [Bool.not_eq_true] at hle
    simp [hle, fsGet_of_not_gt_not_le fs _ 1024 h hle]

theorem fsGet_delIfSome (fs : FS) (p q : FPath) :
    fsGet (if (fsGet fs p).isSome then fsDel fs p else fs) q =
      if q = p then none else fsGet fs q := by
  by_cases hq : q = p
  · subst hq; cases hfs : fsGet fs q <;> simp [hfs, fsGet_fsDel]
  · by_cases hs : (fsGet fs p).isSome <;> simp [hs, fsGet_fsDel, hq]

theorem fsGet_iteDel (fs : FS) (p q : FPath) (c : Prop) [Decidable c] (h : ¬q = p) :
    fsGet (if c then fsDel fs p else fs) q = fsGet fs q := by
  by_cases hc : c <;> simp [hc, fsGet_fsDel, h]

/-- The final artifact-path state of a non-skipped unit is decided by the unit's
download and conversion outcomes alone: the downloaded-then-converted size on
full success, no file otherwise. -/
theorem processUnit_artifact_eq (e : UnitEnv) (y m : Nat) (fs : FS)
    (h : hasSizeGt fs (FPath.parquet y m) 1024 = false) :
    fsGet (processUnit e y m fs).fs (FPath.parquet y m) =
      (match e.dl, e.cv with
       | DlOutcome.ok _, CvOutcome.ok n => some n
       | _, _ => none) := by
  have hp := processUnit_fsGet_purged e y m fs h
  obtain ⟨dl, cv⟩ := e
  cases cv with
  | ok n =>
    cases dl <;>
      simp [processUnit, h, download_file, convert_csv_gz_to_parquet,
        fsGet_fsSet, fsGet_fsDel, fsGet_delIfSome, hp]
  | fail lo s =>
    cases lo <;> cases dl <;>
      simp [processUnit, h, download_file, convert_csv_gz_to_parquet,
        fsGet_fsSet, fsGet_fsDel, fsGet_delIfSome, hp]

/-- The recorded outcome of a non-skipped unit is decided by the unit's download
and conversion outcomes alone. -/
theorem processUnit_out_eq (e : UnitEnv) (y m : Nat) (fs : FS)
    (h : hasSizeGt fs (FPath.parquet y m) 1024 = false) :
    (processUnit e y m fs).out =
      (match e.dl, e.cv with
       | DlOutcome.httpError s, _ => UnitOutcome.fail (FPath.csvGz y m, "download failed: " ++ s)
       | DlOutcome.writeFail _ s, _ => UnitOutcome.fail (FPath.csvGz y m, "download failed: " ++ s)
       | DlOutcome.ok _, CvOutcome.ok _ => UnitOutcome.succ (FPath.parquet y m)
       | DlOutcome.ok _, CvOutcome.fail _ s =>
         UnitOutcome.fail (FPath.csvGz y m, "convert failed: " ++ s)) := by
  obtain ⟨dl, cv⟩ := e
  cases cv with
  | ok n => cases dl <;> simp [processUnit, h, download_file, convert_csv_gz_to_parquet]
  | fail lo s =>
    cases lo <;> cases dl <;>
      simp [processUnit, h, download_file, convert_csv_gz_to_parquet]

/-- A non-skipped unit invokes the Fetcher exactly once. -/
theorem processUnit_fetches_eq (e : UnitEnv) (y m : Nat) (fs : FS)
    (h : hasSizeGt fs (FPath.parquet y m) 1024 = false) :
    (processUnit e y m fs).fetches = 1 := by
  obtain ⟨dl, cv⟩ := e
  cases cv with
  | ok n => cases dl <;> simp [processUnit, h, download_file, convert_csv_gz_to_parquet]
  | fail lo s =>
    cases lo <;> cases dl <;>
      simp [processUnit, h, download_file, convert_csv_gz_to_parquet]

/-- After a non-skipped unit, the unit's staging file does not exist. -/
theorem processUnit_staging_none (e : UnitEnv) (y m : Nat) (fs : FS)
    (h : hasSizeGt fs (FPath.parquet y m) 1024 = false) :
    fsGet (processUnit e y m fs).fs (FPath.csvGz y m) = none := by
  obtain ⟨dl, cv⟩ := e
  cases cv with
  | ok n =>
    cases dl <;>
      simp [processUnit, h, download_file, convert_csv_gz_to_parquet,
        fsGet_fsSet, fsGet_fsDel, fsGet_delIfSome]
  | fail lo s =>
    cases lo <;> cases dl <;>
      simp [processUnit, h, download_file, convert_csv_gz_to_parquet,
        fsGet_fsSet, fsGet_fsDel, fsGet_delIfSome]

/-- A unit only touches its own two paths. -/
theorem processUnit_fsGet_other (e : UnitEnv) (y m : Nat) (fs : FS) (q : FPath)
    (hq1 : q ≠ FPath.csvGz y m) (hq2 : q ≠ FPath.parquet y m) :
    fsGet (processUnit e y m fs).fs q = fsGet fs q := by
  by_cases hskip : hasSizeGt fs (FPath.parquet y m) 1024
  · rw [processUnit_skip e y m fs hskip]
  · simp only [Bool.not_eq_true] at hskip
    obtain ⟨dl, cv⟩ := e
    cases cv with
    | ok n =>
      cases dl <;>
        simp [processUnit, hskip, download_file, convert_csv_gz_to_parquet,
          fsGet_fsSet, fsGet_fsDel, fsGet_delIfSome, fsGet_iteDel, hq1, hq2]
    | fail lo s =>
      cases lo <;> cases dl <;>
        simp [processUnit, hskip, download_file, convert_csv_gz_to_parquet,
          fsGet_fsSet, fsGet_fsDel, fsGet_delIfSome, fsGet_iteDel, hq1, hq2]

/-- A unit that starts with a Broken artifact behaves exactly as the same unit
started with the artifact absent: the broken file is purged and fetch+convert
re-attempted from scratch. -/
theorem processUnit_broken_eq_del (e : UnitEnv) (y m : Nat) (fs : FS) (n : Nat)
    (hb : fsGet fs (FPath.parquet y m) = some n) (hn : n ≤ 1024) :
    processUnit e y m fs = processUnit e y m (fsDel fs (FPath.parquet y m)) := by
  have hgt : hasSizeGt fs (FPath.parquet y m) 1024 = false := by
    simp [hasSizeGt, hb]; omega
  have hle : hasSizeLe fs (FPath.parquet y m) 1024 = true := by
    simp [hasSizeLe, hb]; omega
  have hgt' : hasSizeGt (fsDel fs (FPath.parquet y m)) (FPath.parquet y m) 1024 = false := by
    simp [hasSizeGt, fsGet_fsDel]
  have hle' : hasSizeLe (fsDel fs (FPath.parquet y m)) (FPath.parquet y m) 1024 = false := by
    simp [hasSizeLe, fsGet_fsDel]
  simp [processUnit, hgt, hle, hgt', hle']

/-- The recorded outcome of a unit depends on the starting filesystem only
through the artifact path's state after the unit ran once: re-running a unit on
any filesystem agreeing with the unit's own post-state at the artifact path
records the same outcome. -/
theorem processUnit_out_congr (e : UnitEnv) (y m : Nat) (fs fsB : FS)
    (h : fsGet fsB (FPath.parquet y m) = fsGet (processUnit e y m fs).fs (FPath.parquet y m)) :
    (processUnit e y m fsB).out = (processUnit e y m fs).out := by
  by_cases hskip : hasSizeGt fs (FPath.parquet y m) 1024
  · rw [processUnit_skip e y m fs hskip] at h ⊢
    have hskipB : hasSizeGt fsB (FPath.parquet y m) 1024 = true := by
      unfold hasSizeGt at hskip ⊢
      rw [h]; exact hskip
    rw [processUnit_skip e y m fsB hskipB]
  · simp only [Bool.not_eq_true] at hskip
    rw [processUnit_artifact_eq e y m fs hskip] at h
    rw [processUnit_out_eq e y m fs hskip]
    obtain ⟨dl, cv⟩ := e
    cases cv with
    | ok n =>
      cases dl with
      | ok k =>
        simp only at h
        by_cases hn : 1024 < n
        · have hskipB : hasSizeGt fsB (FPath.parquet y m) 1024 = true := by
            simp [hasSizeGt, h]; omega
          rw [processUnit_skip _ y m fsB hskipB]
        · have hB : hasSizeGt fsB (FPath.parquet y m) 1024 = false := by
            simp [hasSizeGt, h]; omega
          rw [processUnit_out_eq _ y m fsB hB]
      | httpError s =>
        simp only at h
        have hB : hasSizeGt fsB (FPath.parquet y m) 1024 = false := by
          simp [hasSizeGt, h]
        rw [processUnit_out_eq _ y m fsB hB]
      | writeFail k s =>
        simp only at h
        have hB : hasSizeGt fsB (FPath.parquet y m) 1024 = false := by
          simp [hasSizeGt, h]
        rw [processUnit_out_eq _ y m fsB hB]
    | fail lo s =>
      have hB : hasSizeGt fsB (FPath.parquet y m) 1024 = false := by
        cases dl <;> simp only at h <;> simp [hasSizeGt, h]
      rw [processUnit_out_eq _ y m fsB hB]

/-! ## Batch-level lemmas about `runUnits` -/

/-- Every unit records exactly one outcome: a success at its parquet path or a
failure keyed by its csv.gz file name. -/
theorem processUnit_out_cases (e : UnitEnv) (y m : Nat) (fs : FS) :
    (processUnit e y m fs).out = UnitOutcome.succ (FPath.parquet y m) ∨
      ∃ s, (processUnit e y m fs).out = UnitOutcome.fail (FPath.csvGz y m, s) := by
  by_cases hskip : hasSizeGt fs (FPath.parquet y m) 1024
  · left; rw [processUnit_skip e y m fs hskip]
  · simp only [Bool.not_eq_true] at hskip
    rw [processUnit_out_eq e y m fs hskip]
    obtain ⟨dl, cv⟩ := e
    cases dl <;> cases cv <;> simp

theorem runUnits_count (env : Nat × Nat → UnitEnv) (ps : List (Nat × Nat)) (fs : FS) :
    (runUnits env ps fs).successes.length + (runUnits env ps fs).failures.length = ps.length := by
  induction ps generalizing fs with
  | nil => simp [runUnits]
  | cons p rest ih =>
    obtain ⟨y, m⟩ := p
    have hr := ih (processUnit (env (y, m)) y m fs).fs
    cases hout : (processUnit (env (y, m)) y m fs).out with
    | succ q => simp [runUnits, hout]; omega
    | fail x => simp [runUnits, hout]; omega

theorem runUnits_failures_sublist (env : Nat × Nat → UnitEnv) (ps : List (Nat × Nat)) (fs : FS) :
    ((runUnits env ps fs).failures.map (fun x => x.1.period)).Sublist ps := by
  induction ps generalizing fs with
  | nil => simp [runUnits]
  | cons p rest ih =>
    obtain ⟨y, m⟩ := p
    have hr := ih (processUnit (env (y, m)) y m fs).fs
    rcases processUnit_out_cases (env (y, m)) y m fs with hout | ⟨s, hout⟩
    · simp only [runUnits, hout]
      exact List.Sublist.cons _ hr
    · simp only [runUnits, hout, List.map_cons, FPath.period]
      exact List.Sublist.cons₂ _ hr

theorem runUnits_cons_fs (env : Nat × Nat → UnitEnv) (y m : Nat) (rest : List (Nat × Nat))
    (fs : FS) :
    (runUnits env ((y, m) :: rest) fs).fs =
      (runUnits env rest (processUnit (env (y, m)) y m fs).fs).fs := by
  cases hout : (processUnit (env (y, m)) y m fs).out <;> simp [runUnits, hout]

theorem runUnits_cons_fetches (env : Nat × Nat → UnitEnv) (y m : Nat) (rest : List (Nat × Nat))
    (fs : FS) :
    (runUnits env ((y, m) :: rest) fs).fetches =
      (processUnit (env (y, m)) y m fs).fetches +
        (runUnits env rest (processUnit (env (y, m)) y m fs).fs).fetches := by
  cases hout : (processUnit (env (y, m)) y m fs).out <;> simp [runUnits, hout]

theorem runUnits_cons_converts (env : Nat × Nat → UnitEnv) (y m : Nat) (rest : List (Nat × Nat))
    (fs : FS) :
    (runUnits env ((y, m) :: rest) fs).converts =
      (processUnit (env (y, m)) y m fs).converts +
        (runUnits env rest (processUnit (env (y, m)) y m fs).fs).converts := by
  cases hout : (processUnit (env (y, m)) y m fs).out <;> simp [runUnits, hout]

/-- The batch only touches the paths of the periods it processes. -/
theorem runUnits_fsGet_other (env : Nat × Nat → UnitEnv) (q : FPath) :
    ∀ (ps : List (Nat × Nat)) (fs : FS),
      (∀ p ∈ ps, q ≠ FPath.csvGz p.1 p.2 ∧ q ≠ FPath.parquet p.1 p.2) →
      fsGet (runUnits env ps fs).fs q = fsGet fs q := by
  intro ps
  induction ps with
  | nil => intro fs _; simp [runUnits]
  | cons p rest ih =>
    intro fs hq
    obtain ⟨y, m⟩ := p
    obtain ⟨h1, h2⟩ := hq (y, m) (List.mem_cons_self _ _)
    rw [runUnits_cons_fs, ih _ (fun p hp => hq p (List.mem_cons_of_mem _ hp)),
      processUnit_fsGet_other _ _ _ _ _ h1 h2]

/-- A batch all of whose periods already hold Valid artifacts is pure skipping:
the filesystem is unchanged, every period is recorded a success, and the Fetcher
and Converter are never invoked. -/
theorem runUnits_all_valid (env : Nat × Nat → UnitEnv) :
    ∀ (ps : List (Nat × Nat)) (fs : FS),
      (∀ p ∈ ps, hasSizeGt fs (FPath.parquet p.1 p.2) 1024 = true) →
      runUnits env ps fs = ⟨fs, ps.map (fun p => FPath.parquet p.1 p.2), [], 0, 0⟩ := by
  intro ps
  induction ps with
  | nil => intro fs _; simp [runUnits]
  | cons p rest ih =>
    intro fs hv
    obtain ⟨y, m⟩ := p
    have h1 := hv (y, m) (List.mem_cons_self _ _)
    have hrec := ih fs (fun p hp => hv p (List.mem_cons_of_mem _ hp))
    simp [runUnits, processUnit_skip _ _ _ _ h1, hrec]

/-- Re-running a batch over distinct periods on any filesystem that agrees with
the first run's final state on every artifact path records exactly the same
successes and the same failures. -/
theorem runUnits_congr (env : Nat × Nat → UnitEnv) :
    ∀ (ps : List (Nat × Nat)), ps.Nodup → ∀ (fs fsB : FS),
      (∀ p ∈ ps,
        fsGet fsB (FPath.parquet p.1 p.2) =
          fsGet (runUnits env ps fs).fs (FPath.parquet p.1 p.2)) →
      (runUnits env ps fsB).successes = (runUnits env ps fs).successes ∧
        (runUnits env ps fsB).failures = (runUnits env ps fs).failures := by
  intro ps
  induction ps with
  | nil => intro _ fs fsB _; simp [runUnits]
  | cons p rest ih =>
    intro hnd fs fsB hagree
    obtain ⟨y, m⟩ := p
    have hpnotin : (y, m) ∉ rest := (List.nodup_cons.mp hnd).1
    have hndrest : rest.Nodup := (List.nodup_cons.mp hnd).2
    have hframe_rest :
        fsGet (runUnits env rest (processUnit (env (y, m)) y m fs).fs).fs (FPath.parquet y m) =
          fsGet (processUnit (env (y, m)) y m fs).fs (FPath.parquet y m) := by
      apply runUnits_fsGet_other
      intro p hp
      constructor
      · intro hcon; cases hcon
      · intro hcon
        have : (y, m) = p := by
          simp only [FPath.parquet.injEq] at hcon
          exact Prod.ext hcon.1 hcon.2
        exact hpnotin (this ▸ hp)
    have hhead : fsGet fsB (FPath.parquet y m) =
        fsGet (processUnit (env (y, m)) y m fs).fs (FPath.parquet y m) := by
      have h0 := hagree (y, m) (List.mem_cons_self _ _)
      rw [runUnits_cons_fs] at h0
      exact h0.trans hframe_rest
    have hout : (processUnit (env (y, m)) y m fsB).out = (processUnit (env (y, m)) y m fs).out :=
      processUnit_out_congr _ _ _ _ _ hhead
    have hagree' : ∀ p ∈ rest,
        fsGet (processUnit (env (y, m)) y m fsB).fs (FPath.parquet p.1 p.2) =
          fsGet (runUnits env rest (processUnit (env (y, m)) y m fs).fs).fs
            (FPath.parquet p.1 p.2) := by
      intro p hp
      have hne2 : FPath.parquet p.1 p.2 ≠ FPath.parquet y m := by
        intro hcon
        have : p = (y, m) := by
          simp only [FPath.parquet.injEq] at hcon
          exact Prod.ext hcon.1 hcon.2
        exact hpnotin (this ▸ hp)
      have hne1 : FPath.parquet p.1 p.2 ≠ FPath.csvGz y m := by intro hcon; cases hcon
      have h1 := processUnit_fsGet_other (env (y, m)) y m fsB (FPath.parquet p.1 p.2) hne1 hne2
      have h2 := hagree p (List.mem_cons_of_mem _ hp)
      rw [runUnits_cons_fs] at h2
      exact h1.trans h2
    obtain ⟨hs, hf⟩ := ih hndrest (processUnit (env (y, m)) y m fs).fs
      (processUnit (env (y, m)) y m fsB).fs hagree'
    cases houtu : (processUnit (env (y, m)) y m fs).out with
    | succ q =>
      have houtB : (processUnit (env (y, m)) y m fsB).out = UnitOutcome.succ q :=
        hout.trans houtu
      constructor <;> simp [runUnits, houtu, houtB, hs, hf]
    | fail x =>
      have houtB : (processUnit (env (y, m)) y m fsB).out = UnitOutcome.fail x :=
        hout.trans houtu
      constructor <;> simp [runUnits, houtu, houtB, hs, hf]

/-! ## `month_range` lemmas -/

theorem monthRangeAux_succ (ey em f y m : Nat) :
    monthRangeAux ey em (f + 1) y m =
      if y < ey ∨ (y = ey ∧ m ≤ em) then
        (y, m) ::
          (if m + 1 = 13 then monthRangeAux ey em f (y + 1) 1
           else monthRangeAux ey em f y (m + 1))
      else [] := rfl

/-- Any fuel large enough to cover the remaining iterations gives the same
enumeration: the loop's value does not depend on the particular bound. -/
theorem monthRangeAux_stable (ey em : Nat) :
    ∀ (fuel y m : Nat), 1 ≤ m → m ≤ 12 → 12 * ey + em < 12 * y + m + fuel →
      monthRangeAux ey em fuel y m = monthRangeAux ey em (fuel + 1) y m := by
  intro fuel
  induction fuel with
  | zero =>
    intro y m h1 h2 hb
    have hg : ¬(y < ey ∨ (y = ey ∧ m ≤ em)) := by omega
    simp [monthRangeAux, hg]
  | succ f ih =>
    intro y m h1 h2 hb
    by_cases hg : y < ey ∨ (y = ey ∧ m ≤ em)
    · rw [monthRangeAux_succ, monthRangeAux_succ, if_pos hg, if_pos hg]
      congr 1
      by_cases hm : m + 1 = 13
      · rw [if_pos hm, if_pos hm]
        exact ih (y + 1) 1 (by omega) (by omega) (by omega)
      · rw [if_neg hm, if_neg hm]
        exact ih y (m + 1) (by omega) (by omega) (by omega)
    · rw [monthRangeAux_succ, monthRangeAux_succ, if_neg hg, if_neg hg]

/-- One-step unfolding of `month_range` for a valid start month: yield the start
period when the guard holds and continue from the next period, carrying month
overflow into a year increment. -/
theorem month_range_unfold (sy sm ey em : Nat) (h1 : 1 ≤ sm) (h2 : sm ≤ 12) :
    month_range sy sm ey em =
      if sy < ey ∨ (sy = ey ∧ sm ≤ em) then
        (sy, sm) ::
          (if sm + 1 = 13 then month_range (sy + 1) 1 ey em
           else month_range sy (sm + 1) ey em)
      else [] := by
  unfold month_range
  have hfuel : 12 * ey + em + 2 = (12 * ey + em + 1) + 1 := rfl
  rw [hfuel, monthRangeAux_succ]
  by_cases hg : sy < ey ∨ (sy = ey ∧ sm ≤ em)
  · rw [if_pos hg, if_pos hg]
    congr 1
    by_cases hm : sm + 1 = 13
    · rw [if_pos hm, if_pos hm]
      exact monthRangeAux_stable ey em (12 * ey + em + 1) (sy + 1) 1
        (by omega) (by omega) (by omega)
    · rw [if_neg hm, if_neg hm]
      exact monthRangeAux_stable ey em (12 * ey + em + 1) sy (sm + 1)
        (by omega) (by omega) (by omega)
  · rw [if_neg hg, if_neg hg]

theorem unlinP_linP (y m : Nat) (h1 : 1 ≤ m) (h2 : m ≤ 12) : unlinP (linP y m) = (y, m) := by
  unfold unlinP linP
  have e1 : (12 * y + m - 1) / 12 = y := by omega
  have e2 : (12 * y + m - 1) % 12 + 1 = m := by omega
  rw [e1, e2]

theorem linP_unlinP (k : Nat) (hk : 1 ≤ k) : linP (unlinP k).1 (unlinP k).2 = k := by
  unfold unlinP linP
  omega

/-- `month_range` enumerates exactly the periods whose linearization runs from
`linP start` to `linP end` inclusive, in ascending order. -/
theorem month_range_eq_map_aux (ey em : Nat) (h3 : 1 ≤ em) (h4 : em ≤ 12) :
    ∀ (n sy sm : Nat), 1 ≤ sm → sm ≤ 12 → (12 * ey + em + 1) - (12 * sy + sm) = n →
      month_range sy sm ey em =
        (List.range n).map (fun i => unlinP (linP sy sm + i)) := by
  intro n
  induction n with
  | zero =>
    intro sy sm h1 h2 hn
    have hg : ¬(sy < ey ∨ (sy = ey ∧ sm ≤ em)) := by omega
    rw [month_range_unfold sy sm ey em h1 h2, if_neg hg]
    simp
  | succ k ih =>
    intro sy sm h1 h2 hn
    have hg : sy < ey ∨ (sy = ey ∧ sm ≤ em) := by omega
    rw [month_range_unfold sy sm ey em h1 h2, if_pos hg]
    rw [List.range_succ_eq_map, List.map_cons, List.map_map]
    by_cases hm : sm + 1 = 13
    · rw [if_pos hm, ih (sy + 1) 1 (by omega) (by omega) (by omega)]
      congr 1
      · rw [show linP sy sm + 0 = linP sy sm from rfl, unlinP_linP sy sm h1 h2]
      · have hfun : (fun i => unlinP (linP (sy + 1) 1 + i)) =
            ((fun i => unlinP (linP sy sm + i)) ∘ (fun i => i + 1)) := by
          funext i
          simp only [Function.comp]
          congr 1
          unfold linP
          omega
        rw [hfun]
    · rw [if_neg hm, ih sy (sm + 1) (by omega) (by omega) (by omega)]
      congr 1
      · rw [show linP sy sm + 0 = linP sy sm from rfl, unlinP_linP sy sm h1 h2]
      · have hfun : (fun i => unlinP (linP sy (sm + 1) + i)) =
            ((fun i => unlinP (linP sy sm + i)) ∘ (fun i => i + 1)) := by
          funext i
          simp only [Function.comp]
          congr 1
          unfold linP
          omega
        rw [hfun]

theorem month_range_eq_map (sy sm ey em : Nat) (h1 : 1 ≤ sm) (h2 : sm ≤ 12)
    (h3 : 1 ≤ em) (h4 : em ≤ 12) :
    month_range sy sm ey em =
      (List.range ((linP ey em + 1) - linP sy sm)).map (fun i => unlinP (linP sy sm + i)) := by
  exact month_range_eq_map_aux ey em h3 h4 _ sy sm h1 h2 rfl

theorem month_range_nodup (sy sm ey em : Nat) (h1 : 1 ≤ sm) (h2 : sm ≤ 12)
    (h3 : 1 ≤ em) (h4 : em ≤ 12) : (month_range sy sm ey em).Nodup := by
  rw [month_range_eq_map sy sm ey em h1 h2 h3 h4]
  refine List.Nodup.map ?_ (List.nodup_range _)
  intro a b hab
  have ha : 1 ≤ linP sy sm + a := by unfold linP; omega
  have hb : 1 ≤ linP sy sm + b := by unfold linP; omega
  have h := congrArg (fun p : Nat × Nat => linP p.1 p.2) hab
  simp only at h
  rw [linP_unlinP _ ha, linP_unlinP _ hb] at h
  omega

/-! ## Loader lemmas -/

/-- An entry is kept by `good_files` exactly when it is a parquet directory
entry whose size exceeds the 1024-byte threshold, i.e. a Valid artifact. -/
theorem mem_good_files (fs : FS) (p : FPath) (n : Nat) :
    (p, n) ∈ good_files fs ↔ (p, n) ∈ fs ∧ isParquetPath p = true ∧ 1024 < n := by
  unfold good_files parquetFilesOf
  rw [List.mem_filter, List.mem_insertionSort, List.mem_filter]
  simp [and_assoc]

theorem good_files_sorted (fs : FS) : List.Sorted entryLe (good_files fs) := by
  unfold good_files parquetFilesOf
  exact (List.sorted_insertionSort entryLe _).filter _

theorem good_files_nodup (fs : FS) (hnd : (fs.map Prod.fst).Nodup) :
    ((good_files fs).map Prod.fst).Nodup := by
  have h1 : ((fs.filter (fun e => isParquetPath e.1)).map Prod.fst).Nodup :=
    ((List.filter_sublist fs).map Prod.fst).nodup hnd
  have h2 : ((parquetFilesOf fs).map Prod.fst).Nodup :=
    ((List.perm_insertionSort entryLe _).map Prod.fst).nodup_iff.mpr h1
  exact ((List.filter_sublist (parquetFilesOf fs)).map Prod.fst).nodup h2

theorem good_files_eq_nil_iff (fs : FS) :
    good_files fs = [] ↔ ∀ e ∈ fs, isParquetPath e.1 = true → e.2 ≤ 1024 := by
  rw [List.eq_nil_iff_forall_not_mem]
  constructor
  · intro h e he hpq
    by_contra hgt
    exact h e ((mem_good_files fs e.1 e.2).mpr ⟨he, hpq, by omega⟩)
  · intro h e he
    obtain ⟨hin, hpq, hgt⟩ := (mem_good_files fs e.1 e.2).mp he
    have := h e hin hpq
    omega

theorem monthRangeAux_nil (ey em y m : Nat) (h : ¬(y < ey ∨ (y = ey ∧ m ≤ em)))
    (fuel : Nat) : monthRangeAux ey em fuel y m = [] := by
  cases fuel
  · rfl
  · rw [monthRangeAux_succ, if_neg h]

theorem month_range_mem_iff (sy sm ey em y m : Nat) (h1 : 1 ≤ sm) (h2 : sm ≤ 12)
    (h3 : 1 ≤ em) (h4 : em ≤ 12) (hy1 : 1 ≤ m) (hy2 : m ≤ 12) :
    (y, m) ∈ month_range sy sm ey em ↔
      (linP sy sm ≤ linP y m ∧ linP y m ≤ linP ey em) := by
  rw [month_range_eq_map sy sm ey em h1 h2 h3 h4]
  simp only [List.mem_map, List.mem_range]
  constructor
  · rintro ⟨i, hi, hEq⟩
    have hpos : 1 ≤ linP sy sm + i := by unfold linP; omega
    have hl := linP_unlinP (linP sy sm + i) hpos
    rw [hEq] at hl
    simp only at hl
    unfold linP at hl hi ⊢
    omega
  · rintro ⟨hle1, hle2⟩
    refine ⟨linP y m - linP sy sm, by unfold linP at hle1 hle2 ⊢; omega, ?_⟩
    have harith : linP sy sm + (linP y m - linP sy sm) = linP y m := by omega
    rw [harith, unlinP_linP y m hy1 hy2]

/-! ## Claim theorems -/

/-- C1: For every inclusive period range, `download_and_convert_fhv_files`
records exactly one outcome per enumerated period — the length of the successes
list plus the length of the failures list equals the number of periods
enumerated — the failures appear in the order of the ascending period
enumeration (their periods form a sublist of `month_range`'s output), and the
loop never stops early on a single unit's failure. -/
theorem C1_one_outcome_per_period_failures_ordered (env : Nat × Nat → UnitEnv)
    (sy sm ey em : Nat) (fs : FS) :
    (download_and_convert_fhv_files env sy sm ey em fs).successes.length +
        (download_and_convert_fhv_files env sy sm ey em fs).failures.length =
      (month_range sy sm ey em).length ∧
    ((download_and_convert_fhv_files env sy sm ey em fs).failures.map
        (fun x => x.1.period)).Sublist (month_range sy sm ey em) :=
  ⟨runUnits_count env _ fs, runUnits_failures_sublist env _ fs⟩

/-- C6: For start and end periods with valid months, `month_range` yields every
`(year, month)` pair from start to end inclusive, in ascending order, carrying
month overflow into a year increment: the output is the image of the ascending
index range under the linearization inverse.  In particular (see the witness)
enumerating (2019,11)→(2020,2) yields exactly
[(2019,11),(2019,12),(2020,1),(2020,2)]. -/
theorem C6_month_range_enumerates_ascending (sy sm ey em : Nat)
    (h1 : 1 ≤ sm) (h2 : sm ≤ 12) (h3 : 1 ≤ em) (h4 : em ≤ 12)
    (h5 : linP sy sm ≤ linP ey em) :
    month_range sy sm ey em =
      (List.range (linP ey em + 1 - linP sy sm)).map (fun i => unlinP (linP sy sm + i)) ∧
    (∀ y m, 1 ≤ m → m ≤ 12 →
      ((y, m) ∈ month_range sy sm ey em ↔
        (linP sy sm ≤ linP y m ∧ linP y m ≤ linP ey em))) :=
  ⟨month_range_eq_map sy sm ey em h1 h2 h3 h4,
   fun y m hy1 hy2 => month_range_mem_iff sy sm ey em y m h1 h2 h3 h4 hy1 hy2⟩

/-- C6 witness: the concrete enumeration (2019,11)→(2020,2). -/
theorem C6_witness : month_range 2019 11 2020 2 = [(2019, 11), (2019, 12), (2020, 1), (2020, 2)] :=
  ((C6_month_range_enumerates_ascending 2019 11 2020 2 (by decide) (by decide) (by decide)
    (by decide) (by decide)).1).trans (by decide)

/-- C7: A unit that starts with a Broken artifact (existing file of size at or
below the 1024-byte threshold) purges it and re-attempts fetch and convert —
the unit behaves exactly as if the artifact were absent and invokes the Fetcher
— rather than recording a success via the skip path. -/
theorem C7_broken_artifact_purged_and_reattempted (e : UnitEnv) (y m : Nat) (fs : FS)
    (n : Nat) (hb : fsGet fs (FPath.parquet y m) = some n) (hn : n ≤ 1024) :
    processUnit e y m fs = processUnit e y m (fsDel fs (FPath.parquet y m)) ∧
    (processUnit e y m fs).fetches = 1 := by
  have hgt : hasSizeGt fs (FPath.parquet y m) 1024 = false := by
    simp [hasSizeGt, hb]; omega
  exact ⟨processUnit_broken_eq_del e y m fs n hb hn, processUnit_fetches_eq e y m fs hgt⟩

/-- C7 witness: a 100-byte artifact for 2021-05 is purged and re-fetched. -/
theorem C7_witness :
    processUnit ⟨DlOutcome.ok 9000, CvOutcome.ok 3000⟩ 2021 5 [(FPath.parquet 2021 5, 100)] =
        processUnit ⟨DlOutcome.ok 9000, CvOutcome.ok 3000⟩ 2021 5
          (fsDel [(FPath.parquet 2021 5, 100)] (FPath.parquet 2021 5)) ∧
      (processUnit ⟨DlOutcome.ok 9000, CvOutcome.ok 3000⟩ 2021 5
        [(FPath.parquet 2021 5, 100)]).fetches = 1 :=
  C7_broken_artifact_purged_and_reattempted ⟨DlOutcome.ok 9000, CvOutcome.ok 3000⟩ 2021 5
    [(FPath.parquet 2021 5, 100)] 100 (by decide) (by decide)

/-- C8: Whenever the conversion statement fails, any partially written artifact
at the artifact path is deleted before the error propagates: after a failed
`convert_csv_gz_to_parquet` no file remains at the artifact path and the error
is re-raised to the caller. -/
theorem C8_failed_conversion_deletes_partial_artifact (lo : Option Nat) (s : String)
    (fs : FS) (src dst : FPath) :
    fsGet (convert_csv_gz_to_parquet (CvOutcome.fail lo s) fs src dst).1 dst = none ∧
    (convert_csv_gz_to_parquet (CvOutcome.fail lo s) fs src dst).2 = Except.error s := by
  cases lo <;> simp [convert_csv_gz_to_parquet, fsGet_fsSet, fsGet_fsDel, fsGet_delIfSome]

/-- C9: On a non-success HTTP status, `download_file` raises from
`raise_for_status()` before the destination is ever opened for writing, so the
filesystem is unchanged and in particular no file is created at a previously
absent destination path. -/
theorem C9_http_error_creates_no_file (s : String) (fs : FS) (url : String) (dest : FPath)
    (h : fsGet fs dest = none) :
    (download_file (DlOutcome.httpError s) fs url dest).1 = fs ∧
    fsGet (download_file (DlOutcome.httpError s) fs url dest).1 dest = none ∧
    (download_file (DlOutcome.httpError s) fs url dest).2 = Except.error s :=
  ⟨rfl, h, rfl⟩

/-- C9 witness: a 404 download into an empty directory creates nothing. -/
theorem C9_witness :
    (download_file (DlOutcome.httpError ("404")) [] "u" (FPath.csvGz 2019 3)).1 = [] ∧
    fsGet (download_file (DlOutcome.httpError ("404")) [] "u" (FPath.csvGz 2019 3)).1
        (FPath.csvGz 2019 3) = none ∧
    (download_file (DlOutcome.httpError ("404")) [] "u" (FPath.csvGz 2019 3)).2 =
      Except.error ("404") :=
  C9_http_error_creates_no_file ("404") [] "u" (FPath.csvGz 2019 3) (by decide)

/-- C10: When the start period is strictly after the end period, `month_range`
yields the empty sequence and the batch returns empty successes and failures
without touching the filesystem or invoking the Fetcher or the Converter. -/
theorem C10_reversed_range_is_empty (env : Nat × Nat → UnitEnv) (fs : FS)
    (sy sm ey em : Nat) (h : ey < sy ∨ (ey = sy ∧ em < sm)) :
    month_range sy sm ey em = [] ∧
    download_and_convert_fhv_files env sy sm ey em fs = ⟨fs, [], [], 0, 0⟩ := by
  have hg : ¬(sy < ey ∨ (sy = ey ∧ sm ≤ em)) := by omega
  have hmr : month_range sy sm ey em = [] := monthRangeAux_nil ey em sy sm hg _
  refine ⟨hmr, ?_⟩
  unfold download_and_convert_fhv_files
  rw [hmr]
  rfl

/-- C10 witness: the range (2020,3)→(2020,2) is empty and the batch is a no-op. -/
theorem C10_witness :
    month_range 2020 3 2020 2 = [] ∧
    download_and_convert_fhv_files (fun _ => ⟨DlOutcome.httpError ("x"), CvOutcome.ok 1⟩)
        2020 3 2020 2 [] = ⟨[], [], [], 0, 0⟩ :=
  C10_reversed_range_is_empty (fun _ => ⟨DlOutcome.httpError ("x"), CvOutcome.ok 1⟩) []
    2020 3 2020 2 (by decide)

/-- C2 counterexample: running the same one-month batch twice with an unchanged
remote (the download fails with the same HTTP error both times) makes the
second run invoke the Fetcher once — not the zero Fetcher/Converter invocations
the claim asserts for every re-run batch. -/
theorem C2_counterexample_failed_unit_refetches :
    (download_and_convert_fhv_files (fun _ => ⟨DlOutcome.httpError ("404"), CvOutcome.ok 2000⟩)
          2019 1 2019 1
          (download_and_convert_fhv_files (fun _ => ⟨DlOutcome.httpError ("404"), CvOutcome.ok 2000⟩)
            2019 1 2019 1 []).fs).fetches ≠ 0 := by decide

/-- C2 (amended): a unit whose artifact exists with size above the threshold at
unit start is recorded a success with no Fetcher/Converter invocation and no
filesystem change; re-running the same batch on the first run's final
filesystem yields identical successes and identical failures; and the second
run performs zero Fetcher and Converter invocations provided every enumerated
period's artifact is Valid after the first run (a unit that failed, or whose
conversion output was at or below the threshold, is re-attempted instead and
does invoke the Fetcher). -/
theorem C2_second_run_idempotent (env : Nat × Nat → UnitEnv) (sy sm ey em : Nat) (fs : FS)
    (h1 : 1 ≤ sm) (h2 : sm ≤ 12) (h3 : 1 ≤ em) (h4 : em ≤ 12) :
    (∀ y m n, fsGet fs (FPath.parquet y m) = some n → 1024 < n →
      processUnit (env (y, m)) y m fs = ⟨fs, UnitOutcome.succ (FPath.parquet y m), 0, 0⟩) ∧
    (download_and_convert_fhv_files env sy sm ey em
        (download_and_convert_fhv_files env sy sm ey em fs).fs).successes =
      (download_and_convert_fhv_files env sy sm ey em fs).successes ∧
    (download_and_convert_fhv_files env sy sm ey em
        (download_and_convert_fhv_files env sy sm ey em fs).fs).failures =
      (download_and_convert_fhv_files env sy sm ey em fs).failures ∧
    ((∀ p ∈ month_range sy sm ey em,
        hasSizeGt (download_and_convert_fhv_files env sy sm ey em fs).fs
          (FPath.parquet p.1 p.2) 1024 = true) →
      (download_and_convert_fhv_files env sy sm ey em
          (download_and_convert_fhv_files env sy sm ey em fs).fs).fetches = 0 ∧
        (download_and_convert_fhv_files env sy sm ey em
            (download_and_convert_fhv_files env sy sm ey em fs).fs).converts = 0) := by
  have hcong := runUnits_congr env (month_range sy sm ey em)
    (month_range_nodup sy sm ey em h1 h2 h3 h4) fs
    (download_and_convert_fhv_files env sy sm ey em fs).fs (fun p _ => rfl)
  refine ⟨?_, hcong.1, hcong.2, ?_⟩
  · intro y m n hv hn
    exact processUnit_skip (env (y, m)) y m fs (by simp [hasSizeGt, hv]; omega)
  · intro hv
    have hall := runUnits_all_valid env (month_range sy sm ey em)
      (download_and_convert_fhv_files env sy sm ey em fs).fs hv
    unfold download_and_convert_fhv_files at hall ⊢
    rw [hall]
    exact ⟨rfl, rfl⟩

/-- C2 witness: a two-month batch that fully succeeds is re-run with identical
successes. -/
theorem C2_witness :
    (download_and_convert_fhv_files (fun _ => ⟨DlOutcome.ok 5000, CvOutcome.ok 2000⟩)
          2019 1 2019 2
          (download_and_convert_fhv_files (fun _ => ⟨DlOutcome.ok 5000, CvOutcome.ok 2000⟩)
            2019 1 2019 2 []).fs).successes =
      (download_and_convert_fhv_files (fun _ => ⟨DlOutcome.ok 5000, CvOutcome.ok 2000⟩)
          2019 1 2019 2 []).successes :=
  (C2_second_run_idempotent (fun _ => ⟨DlOutcome.ok 5000, CvOutcome.ok 2000⟩) 2019 1 2019 2 []
    (by decide) (by decide) (by decide) (by decide)).2.1

/-- C3 counterexample: a unit whose download succeeds and whose conversion
succeeds with a 10-byte output ends with the artifact path holding a file of
size 10 ≤ 1024 — a Broken artifact left at the end of processing, recorded as a
success, contradicting the claim that the artifact is always deleted or
promoted to Valid. -/
theorem C3_counterexample_tiny_successful_conversion :
    fsGet (processUnit ⟨DlOutcome.ok 5000, CvOutcome.ok 10⟩ 2019 1 []).fs
        (FPath.parquet 2019 1) = some 10 ∧
      10 ≤ 1024 ∧
      (processUnit ⟨DlOutcome.ok 5000, CvOutcome.ok 10⟩ 2019 1 []).out =
        UnitOutcome.succ (FPath.parquet 2019 1) := by decide

/-- C3 (amended): at the end of processing a unit, the artifact path is never
left in the Broken state except when the unit's own conversion succeeded with
output at or below the threshold: any file of size ≤ 1024 remaining at the
artifact path is the complete output of this unit's successful conversion (the
download succeeded and the unit was recorded a success); a Broken file found at
unit start is always deleted. -/
theorem C3_broken_only_from_tiny_successful_conversion (e : UnitEnv) (y m : Nat) (fs : FS)
    (n : Nat) (h : fsGet (processUnit e y m fs).fs (FPath.parquet y m) = some n)
    (hn : n ≤ 1024) :
    e.cv = CvOutcome.ok n ∧ (∃ k, e.dl = DlOutcome.ok k) ∧
      (processUnit e y m fs).out = UnitOutcome.succ (FPath.parquet y m) := by
  by_cases hskip : hasSizeGt fs (FPath.parquet y m) 1024
  · exfalso
    rw [processUnit_skip e y m fs hskip] at h
    rw [hasSizeGt_true_iff] at hskip
    obtain ⟨n', hn', hgt⟩ := hskip
    rw [h] at hn'
    cases hn'
    omega
  · simp only [Bool.not_eq_true] at hskip
    rw [processUnit_artifact_eq e y m fs hskip] at h
    rw [processUnit_out_eq e y m fs hskip]
    obtain ⟨dl, cv⟩ := e
    cases dl <;> cases cv <;> simp_all

/-- C3 witness: the amended statement at the counterexample's concrete input. -/
theorem C3_witness :
    (⟨DlOutcome.ok 5000, CvOutcome.ok 10⟩ : UnitEnv).cv = CvOutcome.ok 10 ∧
    (∃ k, (⟨DlOutcome.ok 5000, CvOutcome.ok 10⟩ : UnitEnv).dl = DlOutcome.ok k) ∧
    (processUnit ⟨DlOutcome.ok 5000, CvOutcome.ok 10⟩ 2019 2 []).out =
      UnitOutcome.succ (FPath.parquet 2019 2) :=
  C3_broken_only_from_tiny_successful_conversion ⟨DlOutcome.ok 5000, CvOutcome.ok 10⟩ 2019 2 []
    10 (by decide) (by decide)

/-- C4 counterexample: a unit started with a Valid artifact and a stale staging
file takes the skip path and leaves the filesystem untouched, so its staging
path still exists after processing — contradicting the claim that the staging
path never exists after processing a unit. -/
theorem C4_counterexample_skip_keeps_stale_staging :
    fsGet (processUnit ⟨DlOutcome.ok 5000, CvOutcome.ok 2000⟩ 2019 1
        [(FPath.csvGz 2019 1, 500), (FPath.parquet 2019 1, 5000)]).fs
      (FPath.csvGz 2019 1) = some 500 := by decide

/-- C4 (amended): after processing a unit that did not take the skip path —
whether it ends in success or in failure, including a thrown download or
conversion error — the unit's staging path does not exist; a unit taking the
skip path (artifact Valid at start) leaves the filesystem unchanged, so a stale
staging file persists only in that case. -/
theorem C4_staging_removed_after_non_skip_unit (e : UnitEnv) (y m : Nat) (fs : FS) :
    (hasSizeGt fs (FPath.parquet y m) 1024 = true → (processUnit e y m fs).fs = fs) ∧
    (hasSizeGt fs (FPath.parquet y m) 1024 = false →
      fsGet (processUnit e y m fs).fs (FPath.csvGz y m) = none) := by
  constructor
  · intro h
    rw [processUnit_skip e y m fs h]
  · intro h
    exact processUnit_staging_none e y m fs h

/-- C4 witness: after a unit whose download fails mid-write, the staging file is
gone. -/
theorem C4_witness :
    fsGet (processUnit ⟨DlOutcome.writeFail 3 "reset", CvOutcome.fail none ("bad")⟩ 2019 2 []).fs
      (FPath.csvGz 2019 2) = none :=
  (C4_staging_removed_after_non_skip_unit ⟨DlOutcome.writeFail 3 "reset",
    CvOutcome.fail none ("bad")⟩ 2019 2 []).2 (by decide)

/-- C5: `load_parquets_into_duckdb` raises the no-valid-artifacts error exactly
when the directory holds zero Valid artifacts (no parquet entry of size above
the threshold), leaving the destination table at its prior state in that case;
otherwise it creates-or-replaces the destination table as the union-by-name of
the Valid artifacts' tables — `good_files` being precisely the Valid parquet
entries, in name-sorted order, without duplicates — with columns absent from
some artifacts filled with nulls (`unionByName`). -/
theorem C5_loader_error_iff_no_valid_artifacts (content : FPath → Table) (fs : FS)
    (db : Option UTable) (hnd : (fs.map Prod.fst).Nodup) :
    (good_files fs = [] ↔ ∀ e ∈ fs, isParquetPath e.1 = true → e.2 ≤ 1024) ∧
    (good_files fs = [] →
      load_parquets_into_duckdb content fs db = (db, Except.error NoValidArtifactsMsg)) ∧
    (good_files fs ≠ [] →
      load_parquets_into_duckdb content fs db =
        (some (unionByName ((good_files fs).map (fun e => content e.1))), Except.ok ())) ∧
    List.Sorted entryLe (good_files fs) ∧
    (∀ p n, (p, n) ∈ good_files fs ↔ (p, n) ∈ fs ∧ isParquetPath p = true ∧ 1024 < n) ∧
    ((good_files fs).map Prod.fst).Nodup := by
  refine ⟨good_files_eq_nil_iff fs, ?_, ?_, good_files_sorted fs,
    fun p n => mem_good_files fs p n, good_files_nodup fs hnd⟩
  · intro h
    simp [load_parquets_into_duckdb, h]
  · intro h
    simp [load_parquets_into_duckdb, h]

/-- C5 witness: one Valid and one Broken artifact; the loader unions exactly the
Valid one. -/
theorem C5_witness :
    load_parquets_into_duckdb (fun _ => ⟨["a"], [[("a", 3)]]⟩)
        [(FPath.parquet 2019 1, 2000), (FPath.parquet 2019 2, 100)] none =
      (some (unionByName (((good_files [(FPath.parquet 2019 1, 2000),
          (FPath.parquet 2019 2, 100)])).map
        (fun e => (fun _ => (⟨["a"], [[("a", 3)]]⟩ : Table)) e.1))), Except.ok ()) :=
  (C5_loader_error_iff_no_valid_artifacts (fun _ => ⟨["a"], [[("a", 3)]]⟩)
    [(FPath.parquet 2019 1, 2000), (FPath.parquet 2019 2, 100)] none
    (by decide)).2.2.1 (by decide)
